import Mathlib

/-!
Verification development for the Greenwashing-Index visualization app.

The app (src/app.py) has three pieces of re-implementable logic:

* a per-year top-10 ranking of countries by a chosen metric column
  (pandas `groupby("year")[metric].rank(method="first", ascending=False)`,
  then the filter `rank <= 10` and `sort_values(["country", "year"])`);
* a quadrant layout for the industry scatter plot (a vertical reference at
  `x = 0`, a horizontal reference at the global mean of the chosen
  greenwashing column, and four annotation anchors at `0.6 * extreme` on the
  x-axis and `0.9 * extreme` on the y-axis, all computed once from the whole
  table);
* CSV loading with integer coercion of the `year` column, memoized by
  `st.cache_data`.

Floats are embedded as rationals (`ℚ`); a missing float cell (NaN) is
embedded as `none : Option ℚ`, matching pandas missing-data semantics for
`rank` (NaN metric rows receive a NaN rank and are never counted when
ranking others) and for `mean`/`min`/`max` on an empty column (NaN result).
-/

/-- A row of `countrylevel.csv` after loading: metric cells may be missing
(NaN), which we embed as `none`. -/
structure CountryRow where
  country : String
  year : Int
  ccii : Option ℚ
  gwe : Option ℚ
  gwghg : Option ℚ
deriving DecidableEq

/-- A metric column selector, as chosen by the UI radio button
(`ccii`, `gwe` or `gwghg`). -/
abbrev Metric := CountryRow → Option ℚ

/-- The metric cell of the row at position `i` of the table (`none` when the
index is out of range or the cell is NaN). -/
def valueAt (t : List CountryRow) (m : Metric) (i : ℕ) : Option ℚ :=
  (t[i]?).bind m

/-- The year of the row at position `i` of the table. -/
def yearAt (t : List CountryRow) (i : ℕ) : Option Int :=
  (t[i]?).map (fun r => r.year)

/-- Row `i` strictly precedes row `j` in the within-year descending order
used by `rank(method="first", ascending=False)`: same year group, both
metric cells present, and either a strictly greater value or an equal value
with a smaller original position.  NaN rows never precede anything. -/
def precedesB (t : List CountryRow) (m : Metric) (i j : ℕ) : Bool :=
  (yearAt t i == yearAt t j) &&
    (match valueAt t m i, valueAt t m j with
     | some w, some v => decide (v < w) || (decide (w = v) && decide (i < j))
     | _, _ => false)

/-- The rank pandas assigns to row `j` by
`groupby("year")[metric].rank(method="first", ascending=False)`:
one plus the number of rows of the same year group that precede it;
`none` (NaN rank) when the metric cell itself is missing. -/
def rankAt (t : List CountryRow) (m : Metric) (j : ℕ) : Option ℕ :=
  (valueAt t m j).map (fun _ =>
    ((Finset.range t.length).filter (fun i => precedesB t m i j = true)).card + 1)

/-- The table with the `rank` column attached (index, row, rank), embedding
the DataFrame after the `df_rank["rank"] = ...` assignment. -/
def withRanks (t : List CountryRow) (m : Metric) : List (ℕ × CountryRow × Option ℕ) :=
  (List.range t.length).filterMap (fun i =>
    (t[i]?).map (fun r => (i, r, rankAt t m i)))

/-- The rows retained by the filter `df_rank[df_rank["rank"] <= 10]`:
a NaN rank fails the comparison, so such rows are dropped. -/
def topTen (t : List CountryRow) (m : Metric) : List (ℕ × CountryRow × ℕ) :=
  (withRanks t m).filterMap (fun p =>
    match p.2.2 with
    | some k => if k ≤ 10 then some (p.1, p.2.1, k) else none
    | none => none)

/-- The sort key order of `sort_values(["country", "year"])`: primarily by
country name, secondarily by year. -/
def rowLE (a b : ℕ × CountryRow × ℕ) : Prop :=
  a.2.1.country < b.2.1.country ∨
    (a.2.1.country = b.2.1.country ∧ a.2.1.year ≤ b.2.1.year)

instance : DecidableRel rowLE := fun a b => by
  unfold rowLE; infer_instance

/-- The final ranked table `df_rank` of src/app.py lines 218-227: rank,
filter to the top 10, then sort by (country, year). -/
def df_rank (t : List CountryRow) (m : Metric) : List (ℕ × CountryRow × ℕ) :=
  List.insertionSort rowLE (topTen t m)

/-- Number of rows of the year-`y` group. -/
def groupSize (t : List CountryRow) (y : Int) : ℕ :=
  ((Finset.range t.length).filter (fun i => yearAt t i = some y)).card

/-- The positions of the year-`y` rows whose metric cell is present
(non-NaN): exactly the rows that receive a numeric rank in that group. -/
def yearGroup (t : List CountryRow) (m : Metric) (y : Int) : Finset ℕ :=
  (Finset.range t.length).filter (fun i =>
    yearAt t i = some y ∧ (valueAt t m i).isSome = true)

/-- Number of rows of the year-`y` group whose metric cell is present
(non-NaN). -/
def rankedCount (t : List CountryRow) (m : Metric) (y : Int) : ℕ :=
  (yearGroup t m y).card

/-- The list of rank values that `df_rank` assigns to the year-`y` rows of
its output, in output order. -/
def ranksOfYear (t : List CountryRow) (m : Metric) (y : Int) : List ℕ :=
  ((df_rank t m).filter (fun p => p.2.1.year == y)).map (fun p => p.2.2)

/-! ## Quadrant layout engine (industry scatter plot) -/

/-- A row of `industrylevel.csv` after loading. -/
structure IndustryRow where
  industry : String
  year : Int
  ccii : ℚ
  gwe : ℚ
  gwghg : ℚ
deriving DecidableEq

/-- pandas `Series.min`: `none` (NaN) on an empty column. -/
def listMin : List ℚ → Option ℚ
  | [] => none
  | x :: xs => some (xs.foldl min x)

/-- pandas `Series.max`: `none` (NaN) on an empty column. -/
def listMax : List ℚ → Option ℚ
  | [] => none
  | x :: xs => some (xs.foldl max x)

/-- pandas `Series.mean`: `none` (NaN) on an empty column. -/
def listMean (l : List ℚ) : Option ℚ :=
  if l = [] then none else some (l.sum / (l.length : ℚ))

/-- The fixed layout pieces of the industry scatter figure: the two dashed
reference lines and the four quadrant annotation anchors
(src/app.py lines 311-337).  Coordinates are `Option ℚ` because pandas
min/max/mean produce NaN on an empty column. -/
structure QuadrantLayout where
  x_ref : ℚ
  y_ref : Option ℚ
  vlineY : Option ℚ × Option ℚ
  hlineX : Option ℚ × Option ℚ
  annTR : Option ℚ × Option ℚ
  annTL : Option ℚ × Option ℚ
  annBL : Option ℚ × Option ℚ
  annBR : Option ℚ × Option ℚ
deriving DecidableEq

/-- The layout computation of src/app.py lines 311-337: `x_center = 0`,
`y_center = df_ind[y_metric].mean()`, reference-line extents from global
min/max, and the four annotation anchors at `0.6 * x-extreme` and
`0.9 * y-extreme`.  Everything is computed once from the whole table. -/
def computeQuadrantLayout (tbl : List IndustryRow) (ym : IndustryRow → ℚ) :
    QuadrantLayout :=
  let xs := tbl.map (fun r => r.ccii)
  let ys := tbl.map ym
  { x_ref := 0
    y_ref := listMean ys
    vlineY := (listMin ys, listMax ys)
    hlineX := (listMin xs, listMax xs)
    annTR := ((listMax xs).map (fun a => a * (6/10)), (listMax ys).map (fun a => a * (9/10)))
    annTL := ((listMin xs).map (fun a => a * (6/10)), (listMax ys).map (fun a => a * (9/10)))
    annBL := ((listMin xs).map (fun a => a * (6/10)), (listMin ys).map (fun a => a * (9/10)))
    annBR := ((listMax xs).map (fun a => a * (6/10)), (listMin ys).map (fun a => a * (9/10))) }

/-- One frame of the animated industry scatter (`animation_frame="year"`):
the year's points plus the figure-level layout, which plotly shares across
all frames because `add_shape`/`update_layout` act on the figure, not on a
frame. -/
structure QuadrantFrame where
  year : Int
  points : List (String × ℚ × ℚ)
  layout : QuadrantLayout
deriving DecidableEq

/-- The per-year frame of the animated scatter: filter the table to the
year and project to (industry, x, y); the layout comes from the whole
table. -/
def makeFrame (tbl : List IndustryRow) (ym : IndustryRow → ℚ) (y : Int) :
    QuadrantFrame :=
  { year := y
    points := (tbl.filter (fun r => r.year == y)).map (fun r => (r.industry, r.ccii, ym r))
    layout := computeQuadrantLayout tbl ym }

/-! ## Data loader -/

/-- A raw cell of the `year` column before `astype(int)`: either a value
pandas can coerce to an integer, or a non-numeric string on which
`astype(int)` raises. -/
inductive RawCell where
  | intLike (n : Int)
  | nonNumeric (s : String)
deriving DecidableEq

/-- A raw row of `countrylevel.csv` as `pd.read_csv` parses it, before the
year coercion. -/
structure RawRow where
  country : String
  year : RawCell
  ccii : Option ℚ
  gwe : Option ℚ
  gwghg : Option ℚ
deriving DecidableEq

/-- Modelled from the spec: the outcome of opening and parsing the CSV
file, which happens inside `pd.read_csv` (library code, not in src/):
either the file is missing, or it is unparseable, or it yields raw rows. -/
inductive CsvFile where
  | missing
  | malformed
  | table (rows : List RawRow)
deriving DecidableEq

/-- The failure taxonomy the spec names `DataLoadError`: in the code these
failures surface as the exceptions `pd.read_csv` and `astype(int)` raise. -/
inductive DataLoadError where
  | fileMissing
  | parseFailure
  | yearNotCoercible
deriving DecidableEq

/-- `astype(int)` on one year cell: raises on a non-numeric cell. -/
def coerceYear : RawCell → Except DataLoadError Int
  | .intLike n => .ok n
  | .nonNumeric _ => .error .yearNotCoercible

/-- Coerce one raw row into a `CountryRow` (fails when the year cell is
non-numeric). -/
def coerceRow (r : RawRow) : Except DataLoadError CountryRow :=
  (coerceYear r.year).map (fun y =>
    { country := r.country, year := y, ccii := r.ccii, gwe := r.gwe, gwghg := r.gwghg })

/-- `load_data` of src/app.py lines 86-92: read the CSV and coerce the
`year` column to integer.  An exception anywhere aborts the whole call, so
a failure never returns a table. -/
def load_data : CsvFile → Except DataLoadError (List CountryRow)
  | .missing => .error .fileMissing
  | .malformed => .error .parseFailure
  | .table rows => rows.mapM coerceRow

/-- Modelled from the spec: the `st.cache_data` memoization wrapped around
`load_data` (library behavior, not in src/).  Given the current cache it
returns the call result, the new cache, and how many times the underlying
parse ran (0 when served from cache).  A failure is not cached. -/
def loadMemo (cache : Option (List CountryRow)) (f : CsvFile) :
    Except DataLoadError (List CountryRow) × Option (List CountryRow) × ℕ :=
  match cache with
  | some t => (.ok t, some t, 0)
  | none =>
    match load_data f with
    | .ok t => (.ok t, some t, 1)
    | .error e => (.error e, none, 1)

/-- The sort key realized by `rank(method="first", ascending=False)`:
lexicographic on (value descending, original position ascending). -/
def keyOf (t : List CountryRow) (m : Metric) (i : ℕ) : ℚᵒᵈ ×ₗ ℕ :=
  toLex (OrderDual.toDual ((valueAt t m i).getD 0), i)

/-- The numeric rank of a row of the year-`y` group, expressed through the
sort keys: one plus the number of strictly smaller keys in the group. -/
def rankNat (t : List CountryRow) (m : Metric) (y : Int) (i : ℕ) : ℕ :=
  (((yearGroup t m y).image (keyOf t m)).filter (fun c => c < keyOf t m i)).card + 1

instance : IsTrans (ℕ × CountryRow × ℕ) rowLE := ⟨by
  intro a b c hab hbc
  unfold rowLE at hab hbc ⊢
  rcases hab with h1 | ⟨h1, h2⟩
  · rcases hbc with h3 | ⟨h3, _⟩
    · exact Or.inl (lt_trans h1 h3)
    · exact Or.inl (h3 ▸ h1)
  · rcases hbc with h3 | ⟨h3, h4⟩
    · exact Or.inl (h1 ▸ h3)
    · exact Or.inr ⟨h1.trans h3, le_trans h2 h4⟩⟩

instance : IsTotal (ℕ × CountryRow × ℕ) rowLE := ⟨by
  intro a b
  unfold rowLE
  rcases lt_trichotomy a.2.1.country b.2.1.country with h | h | h
  · exact Or.inl (Or.inl h)
  · rcases le_total a.2.1.year b.2.1.year with h2 | h2
    · exact Or.inl (Or.inr ⟨h, h2⟩)
    · exact Or.inr (Or.inr ⟨h.symm, h2⟩)
  · exact Or.inr (Or.inl h)⟩

/-! ## Concrete tables for witnesses and counterexamples -/

/-- The `ccii` metric column selector. -/
def metricCCII : Metric := fun r => r.ccii

def rowA : CountryRow := { country := "A", year := 2020, ccii := some 5, gwe := none, gwghg := none }

def rowB : CountryRow := { country := "B", year := 2020, ccii := some 5, gwe := none, gwghg := none }

def rowC : CountryRow := { country := "C", year := 2020, ccii := some 3, gwe := none, gwghg := none }

/-- The spec example: three rows of year 2020 with ccii 5, 5, 3. -/
def exTieTable : List CountryRow := [rowA, rowB, rowC]

def rowNaN : CountryRow := { country := "B", year := 2020, ccii := none, gwe := none, gwghg := none }

/-- Two rows of year 2020, the second with a missing (NaN) ccii cell. -/
def nanTable : List CountryRow := [rowA, rowNaN]

/-- The spec example industry table: ccii ranges over [-2, 4], gwe over
[0, 10], and the gwe mean is 4. -/
def exIndustryTable : List IndustryRow :=
  [{ industry := "I1", year := 2020, ccii := -2, gwe := 0, gwghg := 0 },
   { industry := "I2", year := 2020, ccii := 4, gwe := 10, gwghg := 0 },
   { industry := "I3", year := 2021, ccii := 1, gwe := 2, gwghg := 0 }]

/-- A raw CSV row whose year cell is not numeric. -/
def badRawRow : RawRow :=
  { country := "X", year := RawCell.nonNumeric "n-a", ccii := none, gwe := none, gwghg := none }

def goodRawRow : RawRow :=
  { country := "A", year := RawCell.intLike 2020, ccii := some 1, gwe := some 2, gwghg := some 3 }

def goodCsv : CsvFile := CsvFile.table [goodRawRow]

def goodTable : List CountryRow :=
  [{ country := "A", year := 2020, ccii := some 1, gwe := some 2, gwghg := some 3 }]

/-! ## Counting lemmas for rank positions

For a finite set in a linear order, mapping each element to the number of
strictly smaller elements is a bijection onto an initial segment of ℕ.
These two lemmas carry the contiguity and distinctness of pandas ranks. -/

lemma cardBelow_lt_of_lt {α : Type} [LinearOrder α] (S : Finset α) {a b : α}
    (ha : a ∈ S) (hab : a < b) :
    (S.filter (fun y => y < a)).card < (S.filter (fun y => y < b)).card := by
  apply Finset.card_lt_card
  constructor
  · intro x hx
    simp only [Finset.mem_filter] at hx ⊢
    exact ⟨hx.1, lt_trans hx.2 hab⟩
  · intro hsub
    have : a ∈ S.filter (fun y => y < a) := hsub (by simp [ha, hab])
    simp at this

lemma image_cardBelow {α : Type} [LinearOrder α] (S : Finset α) :
    S.image (fun x => (S.filter (fun y => y < x)).card) = Finset.range S.card := by
  suffices h : ∀ (n : ℕ) (S : Finset α),
      S.card = n →
      S.image (fun x => (S.filter (fun y => y < x)).card) = Finset.range S.card by
    exact h S.card S rfl
  intro n
  induction n with
  | zero =>
    intro S hc
    rw [Finset.card_eq_zero] at hc
    subst hc
    simp
  | succ n ih =>
    intro S hc
    have hne : S.Nonempty := by
      rw [← Finset.card_pos, hc]; omega
    set M := S.max' hne with hMdef
    have hM : M ∈ S := S.max'_mem hne
    have hcard : (S.erase M).card = n := by
      rw [Finset.card_erase_of_mem hM, hc]
      omega
    have hfe : ∀ x ∈ S.erase M,
        (S.filter (fun y => y < x)).card = ((S.erase M).filter (fun y => y < x)).card := by
      intro x hx
      congr 1
      ext y
      simp only [Finset.mem_filter, Finset.mem_erase]
      constructor
      · rintro ⟨hy, hyx⟩
        refine ⟨⟨?_, hy⟩, hyx⟩
        rintro rfl
        exact absurd (S.le_max' x (Finset.mem_of_mem_erase hx)) (not_le.mpr hyx)
      · rintro ⟨⟨_, hy⟩, hyx⟩
        exact ⟨hy, hyx⟩
    have hfM : (S.filter (fun y => y < M)).card = n := by
      rw [← hcard]
      congr 1
      ext y
      simp only [Finset.mem_filter, Finset.mem_erase]
      constructor
      · rintro ⟨hy, hyM⟩
        exact ⟨ne_of_lt hyM, hy⟩
      · rintro ⟨hne2, hy⟩
        exact ⟨hy, lt_of_le_of_ne (S.le_max' y hy) hne2⟩
    obtain ⟨f, hf⟩ : ∃ f : α → ℕ, f = fun x => (S.filter (fun y => y < x)).card := ⟨_, rfl⟩
    rw [← hf]
    conv_lhs => rw [← Finset.insert_erase hM]
    rw [Finset.image_insert]
    have hfMn : f M = n := by rw [hf]; exact hfM
    have h2 : (S.erase M).image f = Finset.range n := by
      rw [hf, Finset.image_congr (fun x hx => hfe x hx), ih _ hcard, hcard]
    rw [hfMn, h2, hc]
    exact (Finset.range_succ).symm

/-! ## The within-year sort key

Row `i` is mapped to the pair (metric value descending, position ascending);
`precedesB` is exactly the strict order of these keys inside one year
group. -/

lemma keyOf_injective (t : List CountryRow) (m : Metric) :
    Function.Injective (keyOf t m) :=
  fun _ _ h => congrArg (fun p : ℚᵒᵈ ×ₗ ℕ => (ofLex p).2) h

lemma mem_yearGroup {t : List CountryRow} {m : Metric} {y : Int} {i : ℕ} :
    i ∈ yearGroup t m y ↔ yearAt t i = some y ∧ (valueAt t m i).isSome = true := by
  unfold yearGroup
  rw [Finset.mem_filter, Finset.mem_range]
  constructor
  · rintro ⟨_, h⟩; exact h
  · rintro ⟨hy, hv⟩
    refine ⟨?_, hy, hv⟩
    unfold yearAt at hy
    rcases Option.map_eq_some'.mp hy with ⟨r, hr, _⟩
    rcases List.getElem?_eq_some_iff.mp hr with ⟨hlen, _⟩
    exact hlen

lemma keyOf_lt_iff {t : List CountryRow} {m : Metric} {i j : ℕ} {w v : ℚ}
    (hvi : valueAt t m i = some w) (hvj : valueAt t m j = some v) :
    keyOf t m i < keyOf t m j ↔ (v < w ∨ (w = v ∧ i < j)) := by
  unfold keyOf
  rw [hvi, hvj]
  rw [Prod.Lex.lt_iff]
  simp only [Option.getD_some, OrderDual.toDual_lt_toDual, OrderDual.toDual_inj]

lemma precedesB_iff_keyOf_lt {t : List CountryRow} {m : Metric} {y : Int} {i j : ℕ}
    (hyi : yearAt t i = some y) (hyj : yearAt t j = some y)
    {w v : ℚ} (hvi : valueAt t m i = some w) (hvj : valueAt t m j = some v) :
    precedesB t m i j = true ↔ keyOf t m i < keyOf t m j := by
  unfold precedesB
  rw [hyi, hyj, hvi, hvj, keyOf_lt_iff hvi hvj]
  simp

lemma precedesB_elim {t : List CountryRow} {m : Metric} {i j : ℕ}
    (h : precedesB t m i j = true) :
    yearAt t i = yearAt t j ∧
      (∃ w, valueAt t m i = some w) ∧ (∃ v, valueAt t m j = some v) := by
  unfold precedesB at h
  rw [Bool.and_eq_true] at h
  obtain ⟨hy, hm⟩ := h
  refine ⟨by simpa using hy, ?_⟩
  rcases hvi : valueAt t m i with _ | w <;> rcases hvj : valueAt t m j with _ | v <;>
    rw [hvi, hvj] at hm <;> simp_all

lemma valueAt_isSome_lt {t : List CountryRow} {m : Metric} {i : ℕ}
    (h : (valueAt t m i).isSome = true) : i < t.length := by
  rcases Option.isSome_iff_exists.mp h with ⟨v, hv⟩
  unfold valueAt at hv
  rcases Option.bind_eq_some.mp hv with ⟨r, hr, _⟩
  rcases List.getElem?_eq_some_iff.mp hr with ⟨hlen, _⟩
  exact hlen

lemma rankAt_eq_rankNat {t : List CountryRow} {m : Metric} {y : Int} {j : ℕ}
    (hj : j ∈ yearGroup t m y) :
    rankAt t m j = some (rankNat t m y j) := by
  obtain ⟨hyj, hvj⟩ := mem_yearGroup.mp hj
  rcases Option.isSome_iff_exists.mp hvj with ⟨v, hv⟩
  unfold rankAt rankNat
  rw [hv]
  simp only [Option.map_some']
  congr 2
  rw [Finset.filter_image, Finset.card_image_of_injective _ (keyOf_injective t m)]
  congr 1
  ext i
  simp only [Finset.mem_filter, Finset.mem_range]
  constructor
  · rintro ⟨hilen, hprec⟩
    obtain ⟨hyeq, ⟨w, hw⟩, _⟩ := precedesB_elim hprec
    have hyi : yearAt t i = some y := by rw [hyeq, hyj]
    have higrp : i ∈ yearGroup t m y :=
      mem_yearGroup.mpr ⟨hyi, by rw [hw]; rfl⟩
    exact ⟨Finset.mem_filter.mp higrp |>.2 |> fun h => Finset.mem_filter.mpr
      ⟨Finset.mem_range.mpr hilen, h⟩, (precedesB_iff_keyOf_lt hyi hyj hw hv).mp hprec⟩
  · rintro ⟨higrp, hlt⟩
    have higrp2 : i ∈ yearGroup t m y := higrp
    obtain ⟨hyi, hvi⟩ := mem_yearGroup.mp higrp2
    rcases Option.isSome_iff_exists.mp hvi with ⟨w, hw⟩
    exact ⟨valueAt_isSome_lt hvi, (precedesB_iff_keyOf_lt hyi hyj hw hv).mpr hlt⟩

lemma range_image_succ (n : ℕ) :
    (Finset.range n).image (fun k => k + 1) = Finset.Icc 1 n := by
  ext k
  simp only [Finset.mem_image, Finset.mem_range, Finset.mem_Icc]
  constructor
  · rintro ⟨j, hj, rfl⟩; omega
  · rintro ⟨h1, h2⟩; exact ⟨k - 1, by omega, by omega⟩

/-- The numeric ranks of one year group are exactly 1..n where n is the
number of non-missing rows of the group. -/
lemma rankNat_image (t : List CountryRow) (m : Metric) (y : Int) :
    (yearGroup t m y).image (rankNat t m y) = Finset.Icc 1 (rankedCount t m y) := by
  have hcardS : ((yearGroup t m y).image (keyOf t m)).card = rankedCount t m y :=
    Finset.card_image_of_injective _ (keyOf_injective t m)
  have hcb := image_cardBelow ((yearGroup t m y).image (keyOf t m))
  ext k
  simp only [Finset.mem_image, Finset.mem_Icc]
  constructor
  · rintro ⟨i, hi, rfl⟩
    have hkey : keyOf t m i ∈ (yearGroup t m y).image (keyOf t m) :=
      Finset.mem_image_of_mem _ hi
    have hmem : (((yearGroup t m y).image (keyOf t m)).filter
        (fun d => d < keyOf t m i)).card
          ∈ Finset.range (((yearGroup t m y).image (keyOf t m)).card) := by
      rw [← hcb]
      exact Finset.mem_image_of_mem _ hkey
    rw [Finset.mem_range, hcardS] at hmem
    unfold rankNat
    omega
  · rintro ⟨h1, h2⟩
    have hmem : k - 1 ∈ Finset.range (((yearGroup t m y).image (keyOf t m)).card) := by
      rw [Finset.mem_range, hcardS]
      omega
    rw [← hcb] at hmem
    rcases Finset.mem_image.mp hmem with ⟨c, hc, hcb2⟩
    rcases Finset.mem_image.mp hc with ⟨i, hi, hkey⟩
    refine ⟨i, hi, ?_⟩
    unfold rankNat
    rw [hkey, hcb2]
    omega

/-- Distinct rows of one year group receive distinct numeric ranks. -/
lemma rankNat_injOn {t : List CountryRow} {m : Metric} {y : Int} {i j : ℕ}
    (hi : i ∈ yearGroup t m y) (hj : j ∈ yearGroup t m y) (hij : i ≠ j) :
    rankNat t m y i ≠ rankNat t m y j := by
  have hkey : keyOf t m i ≠ keyOf t m j := fun h => hij (keyOf_injective t m h)
  rcases lt_or_gt_of_ne hkey with hlt | hlt
  · have := cardBelow_lt_of_lt ((yearGroup t m y).image (keyOf t m))
      (Finset.mem_image_of_mem _ hi) hlt
    unfold rankNat
    omega
  · have := cardBelow_lt_of_lt ((yearGroup t m y).image (keyOf t m))
      (Finset.mem_image_of_mem _ hj) hlt
    unfold rankNat
    omega

/-! ## Membership and order structure of the ranked output -/

lemma mem_withRanks {t : List CountryRow} {m : Metric} {i : ℕ} {r : CountryRow}
    {ok : Option ℕ} :
    (i, r, ok) ∈ withRanks t m ↔ t[i]? = some r ∧ ok = rankAt t m i := by
  unfold withRanks
  rw [List.mem_filterMap]
  constructor
  · rintro ⟨a, _, ha⟩
    rcases Option.map_eq_some'.mp ha with ⟨s, hs, heq⟩
    injection heq with h1 h2
    subst h1
    injection h2 with h2a h2b
    subst h2a
    exact ⟨hs, h2b.symm⟩
  · rintro ⟨hr, rfl⟩
    refine ⟨i, ?_, by rw [hr]; rfl⟩
    rw [List.mem_range]
    exact (List.getElem?_eq_some_iff.mp hr).1

lemma mem_topTen {t : List CountryRow} {m : Metric} {i : ℕ} {r : CountryRow} {k : ℕ} :
    (i, r, k) ∈ topTen t m ↔
      t[i]? = some r ∧ rankAt t m i = some k ∧ k ≤ 10 := by
  unfold topTen
  rw [List.mem_filterMap]
  constructor
  · rintro ⟨⟨a, s, ok⟩, hmem, hma⟩
    rcases ok with _ | k'
    · simp at hma
    · simp only at hma
      by_cases hk : k' ≤ 10
      · rw [if_pos hk] at hma
        injection hma with h
        injection h with h1 h2
        injection h2 with h2a h2b
        subst h1; subst h2a; subst h2b
        obtain ⟨hr, hrank⟩ := mem_withRanks.mp hmem
        exact ⟨hr, hrank.symm, hk⟩
      · rw [if_neg hk] at hma
        exact absurd hma (by simp)
  · rintro ⟨hr, hrank, hk⟩
    refine ⟨(i, r, some k), mem_withRanks.mpr ⟨hr, hrank.symm⟩, ?_⟩
    simp only
    rw [if_pos hk]

lemma pairwise_filterMap_of_pairwise {α β : Type} {R : α → α → Prop}
    {S : β → β → Prop} (f : α → Option β)
    (h : ∀ a b, R a b → ∀ x, f a = some x → ∀ y, f b = some y → S x y) :
    ∀ {l : List α}, l.Pairwise R → (l.filterMap f).Pairwise S := by
  intro l hl
  induction hl with
  | nil => simp
  | cons hhead _ ih =>
    rename_i a l' _
    rw [List.filterMap_cons]
    rcases hfa : f a with _ | x
    · exact ih
    · refine List.Pairwise.cons ?_ ih
      intro y hy
      rcases List.mem_filterMap.mp hy with ⟨b, hb, hfb⟩
      exact h a b (hhead b hb) x hfa y hfb

lemma topTen_pairwise_idx (t : List CountryRow) (m : Metric) :
    (topTen t m).Pairwise (fun a b => a.1 < b.1) := by
  have h0 : (List.range t.length).Pairwise (· < ·) := List.pairwise_lt_range t.length
  have h1 : (withRanks t m).Pairwise (fun a b => a.1 < b.1) := by
    unfold withRanks
    refine pairwise_filterMap_of_pairwise _ ?_ h0
    intro a b hab x hx y hy
    rcases Option.map_eq_some'.mp hx with ⟨r, _, hxeq⟩
    rcases Option.map_eq_some'.mp hy with ⟨s, _, hyeq⟩
    rw [← hxeq, ← hyeq]
    exact hab
  unfold topTen
  refine pairwise_filterMap_of_pairwise _ ?_ h1
  intro a b hab x hx y hy
  rcases a with ⟨i, r, ok⟩
  rcases b with ⟨j, s, ok'⟩
  rcases ok with _ | k
  · simp at hx
  · rcases ok' with _ | k'
    · simp at hy
    · simp only at hx hy
      by_cases hk : k ≤ 10
      · by_cases hk' : k' ≤ 10
        · rw [if_pos hk] at hx
          rw [if_pos hk'] at hy
          injection hx with hx1
          injection hy with hy1
          rw [← hx1, ← hy1]
          exact hab
        · rw [if_neg hk'] at hy
          exact absurd hy (by simp)
      · rw [if_neg hk] at hx
        exact absurd hx (by simp)

lemma mem_topTen_year {t : List CountryRow} {m : Metric} {y : Int} {i : ℕ}
    {r : CountryRow} {k : ℕ} (h : (i, r, k) ∈ topTen t m) (hy : r.year = y) :
    i ∈ yearGroup t m y ∧ k = rankNat t m y i := by
  obtain ⟨hr, hrank, _⟩ := mem_topTen.mp h
  have hyi : yearAt t i = some y := by
    unfold yearAt
    rw [hr, Option.map_some', hy]
  have hvi : (valueAt t m i).isSome = true := by
    unfold rankAt at hrank
    rcases hv : valueAt t m i with _ | v
    · rw [hv] at hrank; simp at hrank
    · rfl
  have hig : i ∈ yearGroup t m y := mem_yearGroup.mpr ⟨hyi, hvi⟩
  have := rankAt_eq_rankNat hig
  rw [this] at hrank
  exact ⟨hig, (Option.some_injective _ hrank).symm⟩

lemma unsortedRanks_nodup (t : List CountryRow) (m : Metric) (y : Int) :
    (((topTen t m).filter (fun p => p.2.1.year == y)).map
      (fun p => p.2.2)).Nodup := by
  have h1 : ((topTen t m).filter (fun p => p.2.1.year == y)).Pairwise
      (fun a b => a.1 < b.1) :=
    (topTen_pairwise_idx t m).filter _
  have h2 : ((topTen t m).filter (fun p => p.2.1.year == y)).Pairwise
      (fun a b => a.2.2 ≠ b.2.2) := by
    refine h1.imp_of_mem ?_
    intro a b ha hb hab
    have hat : a ∈ topTen t m := List.mem_of_mem_filter ha
    have hbt : b ∈ topTen t m := List.mem_of_mem_filter hb
    have hay : a.2.1.year = y := by
      have := List.of_mem_filter ha
      simpa using this
    have hby : b.2.1.year = y := by
      have := List.of_mem_filter hb
      simpa using this
    rcases a with ⟨i, r, k⟩
    rcases b with ⟨j, s, k2⟩
    obtain ⟨hi, hk⟩ := mem_topTen_year hat hay
    obtain ⟨hj, hk2⟩ := mem_topTen_year hbt hby
    simp only at hab ⊢
    rw [hk, hk2]
    exact rankNat_injOn hi hj (Nat.ne_of_lt hab)
  exact List.pairwise_map.mpr h2

lemma unsortedRanks_toFinset (t : List CountryRow) (m : Metric) (y : Int) :
    (((topTen t m).filter (fun p => p.2.1.year == y)).map
      (fun p => p.2.2)).toFinset
      = Finset.Icc 1 (min (rankedCount t m y) 10) := by
  ext k
  rw [List.mem_toFinset, List.mem_map]
  constructor
  · rintro ⟨p, hp, rfl⟩
    have hpt : p ∈ topTen t m := List.mem_of_mem_filter hp
    have hpy : p.2.1.year = y := by
      have := List.of_mem_filter hp
      simpa using this
    rcases p with ⟨i, r, kk⟩
    obtain ⟨hi, hk⟩ := mem_topTen_year hpt hpy
    have hk10 : kk ≤ 10 := (mem_topTen.mp hpt).2.2
    have hmem : kk ∈ Finset.Icc 1 (rankedCount t m y) := by
      rw [← rankNat_image]
      exact Finset.mem_image.mpr ⟨i, hi, hk.symm⟩
    rw [Finset.mem_Icc] at hmem
    simp only
    rw [Finset.mem_Icc]
    omega
  · intro hk
    rw [Finset.mem_Icc] at hk
    have hk10 : k ≤ 10 := le_trans hk.2 (min_le_right _ _)
    have hmem : k ∈ Finset.Icc 1 (rankedCount t m y) := by
      rw [Finset.mem_Icc]
      exact ⟨hk.1, le_trans hk.2 (min_le_left _ _)⟩
    rw [← rankNat_image] at hmem
    rcases Finset.mem_image.mp hmem with ⟨i, hi, hkeq⟩
    obtain ⟨hyi, hvi⟩ := mem_yearGroup.mp hi
    rcases Option.map_eq_some'.mp hyi with ⟨r, hr, hyr⟩
    refine ⟨(i, r, k), ?_, rfl⟩
    rw [List.mem_filter]
    refine ⟨?_, by simp [hyr]⟩
    refine mem_topTen.mpr ⟨hr, ?_, hk10⟩
    rw [rankAt_eq_rankNat hi, hkeq]

lemma ranksOfYear_perm (t : List CountryRow) (m : Metric) (y : Int) :
    (ranksOfYear t m y).Perm
      (((topTen t m).filter (fun p => p.2.1.year == y)).map (fun p => p.2.2)) := by
  unfold ranksOfYear df_rank
  exact ((List.perm_insertionSort rowLE (topTen t m)).filter _).map _

/-- The rank of a row with a present metric cell, as an explicit count of
the rows preceding it. -/
lemma rankAt_some {t : List CountryRow} {m : Metric} {i : ℕ} {v : ℚ}
    (hv : valueAt t m i = some v) :
    rankAt t m i = some
      (((Finset.range t.length).filter (fun a => precedesB t m a i = true)).card + 1) := by
  unfold rankAt
  rw [hv]
  rfl

/-! ## Extremum helpers for the quadrant layout -/

lemma foldl_max_mem : ∀ (xs : List ℚ) (x : ℚ), xs.foldl max x ∈ x :: xs := by
  intro xs
  induction xs with
  | nil => intro x; simp
  | cons y ys ih =>
    intro x
    rw [List.foldl_cons]
    rcases List.mem_cons.mp (ih (max x y)) with h | h
    · rcases max_choice x y with h2 | h2
      · rw [h, h2]; exact List.mem_cons_self _ _
      · rw [h, h2]; exact List.mem_cons_of_mem _ (List.mem_cons_self _ _)
    · exact List.mem_cons_of_mem _ (List.mem_cons_of_mem _ h)

lemma le_foldl_max : ∀ (xs : List ℚ) (x b : ℚ), b = x ∨ b ∈ xs → b ≤ xs.foldl max x := by
  intro xs
  induction xs with
  | nil =>
    rintro x b (rfl | h)
    · simp
    · simp at h
  | cons y ys ih =>
    rintro x b (rfl | h)
    · rw [List.foldl_cons]
      exact le_trans (le_max_left b y) (ih (max b y) (max b y) (Or.inl rfl))
    · rw [List.foldl_cons]
      rcases List.mem_cons.mp h with rfl | h2
      · exact le_trans (le_max_right x b) (ih _ _ (Or.inl rfl))
      · exact ih _ _ (Or.inr h2)

lemma foldl_min_mem : ∀ (xs : List ℚ) (x : ℚ), xs.foldl min x ∈ x :: xs := by
  intro xs
  induction xs with
  | nil => intro x; simp
  | cons y ys ih =>
    intro x
    rw [List.foldl_cons]
    rcases List.mem_cons.mp (ih (min x y)) with h | h
    · rcases min_choice x y with h2 | h2
      · rw [h, h2]; exact List.mem_cons_self _ _
      · rw [h, h2]; exact List.mem_cons_of_mem _ (List.mem_cons_self _ _)
    · exact List.mem_cons_of_mem _ (List.mem_cons_of_mem _ h)

lemma foldl_min_le : ∀ (xs : List ℚ) (x b : ℚ), b = x ∨ b ∈ xs → xs.foldl min x ≤ b := by
  intro xs
  induction xs with
  | nil =>
    rintro x b (rfl | h)
    · simp
    · simp at h
  | cons y ys ih =>
    rintro x b (rfl | h)
    · rw [List.foldl_cons]
      exact le_trans (ih (min b y) (min b y) (Or.inl rfl)) (min_le_left b y)
    · rw [List.foldl_cons]
      rcases List.mem_cons.mp h with rfl | h2
      · exact le_trans (ih _ _ (Or.inl rfl)) (min_le_right x b)
      · exact ih _ _ (Or.inr h2)

lemma listMax_spec {l : List ℚ} {a : ℚ} (h : listMax l = some a) :
    a ∈ l ∧ ∀ b ∈ l, b ≤ a := by
  rcases l with _ | ⟨x, xs⟩
  · simp [listMax] at h
  · unfold listMax at h
    injection h with h
    subst h
    refine ⟨foldl_max_mem xs x, ?_⟩
    intro b hb
    rcases List.mem_cons.mp hb with rfl | hb2
    · exact le_foldl_max xs b b (Or.inl rfl)
    · exact le_foldl_max xs x b (Or.inr hb2)

lemma listMin_spec {l : List ℚ} {a : ℚ} (h : listMin l = some a) :
    a ∈ l ∧ ∀ b ∈ l, a ≤ b := by
  rcases l with _ | ⟨x, xs⟩
  · simp [listMin] at h
  · unfold listMin at h
    injection h with h
    subst h
    refine ⟨foldl_min_mem xs x, ?_⟩
    intro b hb
    rcases List.mem_cons.mp hb with rfl | hb2
    · exact foldl_min_le xs b b (Or.inl rfl)
    · exact foldl_min_le xs x b (Or.inr hb2)

lemma listMax_isSome {l : List ℚ} (h : l ≠ []) : ∃ a, listMax l = some a := by
  rcases l with _ | ⟨x, xs⟩
  · exact absurd rfl h
  · exact ⟨xs.foldl max x, rfl⟩

lemma listMin_isSome {l : List ℚ} (h : l ≠ []) : ∃ a, listMin l = some a := by
  rcases l with _ | ⟨x, xs⟩
  · exact absurd rfl h
  · exact ⟨xs.foldl min x, rfl⟩

lemma listMean_spec {l : List ℚ} (h : l ≠ []) :
    ∃ μ, listMean l = some μ ∧ μ * (l.length : ℚ) = l.sum := by
  refine ⟨l.sum / (l.length : ℚ), ?_, ?_⟩
  · unfold listMean
    rw [if_neg h]
  · have hlen : (l.length : ℚ) ≠ 0 := by
      simp [List.length_eq_zero, h]
    exact div_mul_cancel₀ _ hlen

/-! ## Loader helper -/

lemma mapM_coerce_error {rows : List RawRow} {r : RawRow} (hr : r ∈ rows)
    {e : DataLoadError} (he : coerceRow r = .error e) :
    ∃ e2, rows.mapM coerceRow = Except.error e2 := by
  induction rows with
  | nil => simp at hr
  | cons a l ih =>
    rw [List.mapM_cons]
    rcases ha : coerceRow a with e0 | b
    · exact ⟨e0, rfl⟩
    · rcases List.mem_cons.mp hr with rfl | hr2
      · rw [ha] at he
        simp at he
      · rcases ih hr2 with ⟨e2, he2⟩
        refine ⟨e2, ?_⟩
        show (l.mapM coerceRow >>= fun bs => pure (b :: bs)) = Except.error e2
        rw [he2]
        rfl

/-! ## Claim theorems -/

/-- Claim C1 (amended): for every input table and year, the ranks that
`df_rank` (the top-10 ranking with k = 10) assigns to the retained rows of
that year have no duplicates and form exactly the contiguous sequence
1..m, where m = min(number of rows of that year whose metric cell is
present, 10); moreover only rows with rank at most 10 appear in the
output.  (The original claim measured m against the raw group size; rows
whose metric value is missing receive no rank, so they do not count, see
the counterexample.) -/
theorem claim_C1_rank_contiguity (t : List CountryRow) (m : Metric) (y : Int) :
    (ranksOfYear t m y).Nodup ∧
      (ranksOfYear t m y).toFinset = Finset.Icc 1 (min (rankedCount t m y) 10) ∧
      ∀ p ∈ df_rank t m, p.2.2 ≤ 10 := by
  have hperm := ranksOfYear_perm t m y
  refine ⟨hperm.nodup_iff.mpr (unsortedRanks_nodup t m y), ?_, ?_⟩
  · rw [List.toFinset_eq_of_perm _ _ hperm]
    exact unsortedRanks_toFinset t m y
  · intro p hp
    unfold df_rank at hp
    have hpt : p ∈ topTen t m :=
      (List.perm_insertionSort rowLE (topTen t m)).mem_iff.mp hp
    rcases p with ⟨i, r, k⟩
    exact (mem_topTen.mp hpt).2.2

/-- Claim C1 witness: the amended statement instantiated on a concrete
two-row table, with the rank bound discharged at a concrete output row. -/
theorem claim_C1_witness :
    (ranksOfYear nanTable metricCCII 2020).Nodup ∧
      (ranksOfYear nanTable metricCCII 2020).toFinset
        = Finset.Icc 1 (min (rankedCount nanTable metricCCII 2020) 10) ∧
      ((0, rowA, 1) : ℕ × CountryRow × ℕ).2.2 ≤ 10 :=
  ⟨(claim_C1_rank_contiguity nanTable metricCCII 2020).1,
   (claim_C1_rank_contiguity nanTable metricCCII 2020).2.1,
   (claim_C1_rank_contiguity nanTable metricCCII 2020).2.2 (0, rowA, 1) (by decide)⟩

/-- Claim C1 counterexample: with a missing (NaN) metric cell in the 2020
group, the retained ranks are just [1] while the claimed
m = min(group size, 10) = 2, so the ranks do not fill 1..m. -/
theorem claim_C1_counterexample :
    ¬ ((ranksOfYear nanTable metricCCII 2020).toFinset
        = Finset.Icc 1 (min (groupSize nanTable 2020) 10)) := by
  decide

/-- Claim C2: ties are broken by original row order.  If two rows of the
same year have the same metric value, the one at the smaller position
receives the strictly smaller rank.  (Determinism of the ranking is
definitional here: `df_rank` is a pure function of the table.) -/
theorem claim_C2_tie_break (t : List CountryRow) (m : Metric) (i j : ℕ) (v : ℚ)
    (hij : i < j) (hy : yearAt t i = yearAt t j)
    (hvi : valueAt t m i = some v) (hvj : valueAt t m j = some v) :
    ∃ ri rj, rankAt t m i = some ri ∧ rankAt t m j = some rj ∧ ri < rj := by
  refine ⟨_, _, rankAt_some hvi, rankAt_some hvj, ?_⟩
  have hsub : (Finset.range t.length).filter (fun a => precedesB t m a i = true)
      ⊆ (Finset.range t.length).filter (fun a => precedesB t m a j = true) := by
    intro a ha
    rw [Finset.mem_filter] at ha ⊢
    refine ⟨ha.1, ?_⟩
    have hp := ha.2
    rcases hva : valueAt t m a with _ | w
    · unfold precedesB at hp
      rw [hva, hvi] at hp
      simp at hp
    · unfold precedesB at hp ⊢
      rw [hva, hvi] at hp
      rw [hva, hvj]
      simp only [Bool.and_eq_true, Bool.or_eq_true, decide_eq_true_eq,
        beq_iff_eq] at hp ⊢
      obtain ⟨hy1, hcmp⟩ := hp
      rcases hcmp with hlt | ⟨heq, hai⟩
      · exact ⟨hy1.trans hy, Or.inl hlt⟩
      · exact ⟨hy1.trans hy, Or.inr ⟨heq, lt_trans hai hij⟩⟩
  have hmem : i ∈ (Finset.range t.length).filter (fun a => precedesB t m a j = true) := by
    rw [Finset.mem_filter, Finset.mem_range]
    refine ⟨valueAt_isSome_lt (by rw [hvi]; rfl), ?_⟩
    unfold precedesB
    rw [hvi, hvj]
    simp only [Bool.and_eq_true, Bool.or_eq_true, decide_eq_true_eq, beq_iff_eq]
    exact ⟨hy, Or.inr ⟨by simp, hij⟩⟩
  have hnmem : i ∉ (Finset.range t.length).filter (fun a => precedesB t m a i = true) := by
    rw [Finset.mem_filter]
    rintro ⟨_, hp⟩
    unfold precedesB at hp
    rw [hvi] at hp
    simp only [Bool.and_eq_true, Bool.or_eq_true, decide_eq_true_eq, beq_iff_eq] at hp
    rcases hp.2 with hlt | ⟨_, hii⟩
    · exact lt_irrefl v hlt
    · exact lt_irrefl i hii
  have hcard := Finset.card_lt_card
    ((Finset.ssubset_iff_of_subset hsub).mpr ⟨i, hmem, hnmem⟩)
  omega

/-- Claim C2 witness: on the spec example (A, 2020, 5), (B, 2020, 5),
(C, 2020, 3) the ranks are A = 1, B = 2, C = 3, and the tie between A and
B is resolved in favor of the earlier row. -/
theorem claim_C2_witness :
    (rankAt exTieTable metricCCII 0 = some 1 ∧
      rankAt exTieTable metricCCII 1 = some 2 ∧
      rankAt exTieTable metricCCII 2 = some 3) ∧
      ∃ ri rj, rankAt exTieTable metricCCII 0 = some ri ∧
        rankAt exTieTable metricCCII 1 = some rj ∧ ri < rj :=
  ⟨by decide,
   claim_C2_tie_break exTieTable metricCCII 0 1 5 (by decide) (by decide)
     (by decide) (by decide)⟩

/-- Claim C9: the output of the ranking pipeline is sorted primarily by
country name and secondarily by year, so each country's trajectory is
contiguous in the output. -/
theorem claim_C9_sorted_by_country_year (t : List CountryRow) (m : Metric) :
    (df_rank t m).Sorted rowLE :=
  List.sorted_insertionSort rowLE (topTen t m)

/-- Claim C10: a row whose metric cell is missing (NaN) receives no
numeric rank (its rank is NaN), and every row of the `df_rank` output has
a present metric cell, so NaN rows are silently dropped by the
rank-at-most-10 filter rather than ranked last or raising an error. -/
theorem claim_C10_nan_rows_dropped (t : List CountryRow) (m : Metric) :
    (∀ i, valueAt t m i = none → rankAt t m i = none) ∧
      ∀ p ∈ df_rank t m, (m p.2.1).isSome = true := by
  constructor
  · intro i hi
    unfold rankAt
    rw [hi]
    rfl
  · intro p hp
    unfold df_rank at hp
    have hpt : p ∈ topTen t m :=
      (List.perm_insertionSort rowLE (topTen t m)).mem_iff.mp hp
    rcases p with ⟨i, r, k⟩
    obtain ⟨hr, hrank, _⟩ := mem_topTen.mp hpt
    rcases hv : valueAt t m i with _ | v
    · unfold rankAt at hrank
      rw [hv] at hrank
      simp at hrank
    · unfold valueAt at hv
      rcases Option.bind_eq_some.mp hv with ⟨r2, hr2, hm⟩
      rw [hr] at hr2
      injection hr2 with hr2
      subst hr2
      simp only
      rw [hm]
      rfl

/-- Claim C10 witness: in the two-row table with a NaN ccii cell, the NaN
row gets rank `none`, and the concrete output row has a present metric
cell. -/
theorem claim_C10_witness :
    rankAt nanTable metricCCII 1 = none ∧
      (metricCCII rowA).isSome = true :=
  ⟨(claim_C10_nan_rows_dropped nanTable metricCCII).1 1 (by decide),
   (claim_C10_nan_rows_dropped nanTable metricCCII).2 (0, rowA, 1) (by decide)⟩

/-- Claim C3: for every non-empty industry table, the quadrant layout has
`x_ref = 0`, `y_ref` equal to the global mean of the chosen y column (its
value times the row count equals the column sum), and the four annotation
anchors sit at 0.6 times the respective global x extreme and 0.9 times the
respective global y extreme, the extrema being attained bounds over all
rows of the table. -/
theorem claim_C3_quadrant_layout (tbl : List IndustryRow) (ym : IndustryRow → ℚ)
    (hne : tbl ≠ []) :
    (computeQuadrantLayout tbl ym).x_ref = 0 ∧
      (∃ μ, (computeQuadrantLayout tbl ym).y_ref = some μ ∧
        μ * (tbl.length : ℚ) = (tbl.map ym).sum) ∧
      ∃ xlo xhi ylo yhi,
        listMin (tbl.map (fun r => r.ccii)) = some xlo ∧
        listMax (tbl.map (fun r => r.ccii)) = some xhi ∧
        listMin (tbl.map ym) = some ylo ∧
        listMax (tbl.map ym) = some yhi ∧
        (∀ r ∈ tbl, xlo ≤ r.ccii ∧ r.ccii ≤ xhi ∧ ylo ≤ ym r ∧ ym r ≤ yhi) ∧
        (computeQuadrantLayout tbl ym).annTR = (some (xhi * (6/10)), some (yhi * (9/10))) ∧
        (computeQuadrantLayout tbl ym).annTL = (some (xlo * (6/10)), some (yhi * (9/10))) ∧
        (computeQuadrantLayout tbl ym).annBL = (some (xlo * (6/10)), some (ylo * (9/10))) ∧
        (computeQuadrantLayout tbl ym).annBR = (some (xhi * (6/10)), some (ylo * (9/10))) := by
  have hxs : tbl.map (fun r => r.ccii) ≠ [] := by
    simpa using hne
  have hys : tbl.map ym ≠ [] := by
    simpa using hne
  obtain ⟨xlo, hxlo⟩ := listMin_isSome hxs
  obtain ⟨xhi, hxhi⟩ := listMax_isSome hxs
  obtain ⟨ylo, hylo⟩ := listMin_isSome hys
  obtain ⟨yhi, hyhi⟩ := listMax_isSome hys
  obtain ⟨μ, hm1, hm2⟩ := listMean_spec hys
  refine ⟨rfl, ⟨μ, ?_, ?_⟩, xlo, xhi, ylo, yhi, hxlo, hxhi, hylo, hyhi, ?_, ?_, ?_, ?_, ?_⟩
  · show listMean (tbl.map ym) = some μ
    exact hm1
  · rw [List.length_map] at hm2
    exact hm2
  · intro r hr
    exact ⟨(listMin_spec hxlo).2 _ (List.mem_map_of_mem _ hr),
           (listMax_spec hxhi).2 _ (List.mem_map_of_mem _ hr),
           (listMin_spec hylo).2 _ (List.mem_map_of_mem _ hr),
           (listMax_spec hyhi).2 _ (List.mem_map_of_mem _ hr)⟩
  · show ((listMax (tbl.map (fun r => r.ccii))).map (fun a => a * (6/10)),
        (listMax (tbl.map ym)).map (fun a => a * (9/10)))
        = (some (xhi * (6/10)), some (yhi * (9/10)))
    rw [hxhi, hyhi]
    rfl
  · show ((listMin (tbl.map (fun r => r.ccii))).map (fun a => a * (6/10)),
        (listMax (tbl.map ym)).map (fun a => a * (9/10)))
        = (some (xlo * (6/10)), some (yhi * (9/10)))
    rw [hxlo, hyhi]
    rfl
  · show ((listMin (tbl.map (fun r => r.ccii))).map (fun a => a * (6/10)),
        (listMin (tbl.map ym)).map (fun a => a * (9/10)))
        = (some (xlo * (6/10)), some (ylo * (9/10)))
    rw [hxlo, hylo]
    rfl
  · show ((listMax (tbl.map (fun r => r.ccii))).map (fun a => a * (6/10)),
        (listMin (tbl.map ym)).map (fun a => a * (9/10)))
        = (some (xhi * (6/10)), some (ylo * (9/10)))
    rw [hxhi, hylo]
    rfl

/-- Claim C3 witness: on the spec example table (ccii over [-2, 4], gwe
over [0, 10], gwe mean 4) the layout has y_ref = 4, x_ref = 0 and
top-right anchor (2.4, 9.0) = (12/5, 9). -/
theorem claim_C3_witness :
    exIndustryTable ≠ [] ∧
      ((computeQuadrantLayout exIndustryTable (fun r => r.gwe)).x_ref = 0 ∧
        (∃ μ, (computeQuadrantLayout exIndustryTable (fun r => r.gwe)).y_ref = some μ ∧
          μ * (exIndustryTable.length : ℚ)
            = (exIndustryTable.map (fun r => r.gwe)).sum) ∧
        ∃ xlo xhi ylo yhi,
          listMin (exIndustryTable.map (fun r => r.ccii)) = some xlo ∧
          listMax (exIndustryTable.map (fun r => r.ccii)) = some xhi ∧
          listMin (exIndustryTable.map (fun r => r.gwe)) = some ylo ∧
          listMax (exIndustryTable.map (fun r => r.gwe)) = some yhi ∧
          (∀ r ∈ exIndustryTable,
            xlo ≤ r.ccii ∧ r.ccii ≤ xhi ∧ ylo ≤ r.gwe ∧ r.gwe ≤ yhi) ∧
          (computeQuadrantLayout exIndustryTable (fun r => r.gwe)).annTR
            = (some (xhi * (6/10)), some (yhi * (9/10))) ∧
          (computeQuadrantLayout exIndustryTable (fun r => r.gwe)).annTL
            = (some (xlo * (6/10)), some (yhi * (9/10))) ∧
          (computeQuadrantLayout exIndustryTable (fun r => r.gwe)).annBL
            = (some (xlo * (6/10)), some (ylo * (9/10))) ∧
          (computeQuadrantLayout exIndustryTable (fun r => r.gwe)).annBR
            = (some (xhi * (6/10)), some (ylo * (9/10)))) ∧
      (computeQuadrantLayout exIndustryTable (fun r => r.gwe)).y_ref = some 4 ∧
      (computeQuadrantLayout exIndustryTable (fun r => r.gwe)).annTR
        = (some (12/5), some 9) :=
  ⟨by decide,
   claim_C3_quadrant_layout exIndustryTable (fun r => r.gwe) (by decide),
   by
     show listMean (exIndustryTable.map (fun r => r.gwe)) = some 4
     rw [show exIndustryTable.map (fun r => r.gwe) = [0, 10, 2] from rfl]
     unfold listMean
     rw [if_neg (by simp)]
     norm_num,
   by
     show ((listMax (exIndustryTable.map (fun r => r.ccii))).map (fun a => a * (6/10)),
         (listMax (exIndustryTable.map (fun r => r.gwe))).map (fun a => a * (9/10)))
       = (some (12/5), some 9)
     rw [show exIndustryTable.map (fun r => r.ccii) = [-2, 4, 1] from rfl,
       show exIndustryTable.map (fun r => r.gwe) = [0, 10, 2] from rfl,
       show listMax [-2, 4, 1] = some (List.foldl max (-2) [4, 1]) from rfl,
       show listMax [0, 10, 2] = some (List.foldl max 0 [10, 2]) from rfl,
       Prod.mk.injEq]
     constructor
     · norm_num [List.foldl, max_def]
     · norm_num [List.foldl, max_def]⟩

/-- Claim C4: every per-year frame derived from the same industry table
carries literally the same layout (reference lines and annotation
anchors); they are computed once from the whole table, never per frame. -/
theorem claim_C4_frames_share_layout (tbl : List IndustryRow)
    (ym : IndustryRow → ℚ) (y1 y2 : Int) :
    (makeFrame tbl ym y1).layout = (makeFrame tbl ym y2).layout ∧
      (makeFrame tbl ym y1).layout = computeQuadrantLayout tbl ym :=
  ⟨rfl, rfl⟩

/-- Claim C6 (amended): on an empty column, mean/min/max return NaN
(embedded as `none`) and this NaN silently propagates into every
data-derived field of the quadrant layout; no InsufficientDataError
exists in the code. -/
theorem claim_C6_empty_column_nan (ym : IndustryRow → ℚ) :
    listMean ([] : List ℚ) = none ∧ listMin ([] : List ℚ) = none ∧
      listMax ([] : List ℚ) = none ∧
      computeQuadrantLayout [] ym =
        { x_ref := 0, y_ref := none, vlineY := (none, none),
          hlineX := (none, none), annTR := (none, none), annTL := (none, none),
          annBL := (none, none), annBR := (none, none) } :=
  ⟨rfl, rfl, rfl, rfl⟩

/-- Claim C6 counterexample: on the empty table the layout fields carry
NaN (`none`) rather than any raised error, contradicting the claim that
mean/min/max fail with InsufficientDataError and never propagate NaN into
the layout. -/
theorem claim_C6_counterexample :
    listMean ([] : List ℚ) = none ∧
      (computeQuadrantLayout ([] : List IndustryRow) (fun r => r.gwe)).y_ref = none ∧
      (computeQuadrantLayout ([] : List IndustryRow) (fun r => r.gwe)).annTR
        = (none, none) :=
  ⟨rfl, rfl, rfl⟩

/-- Claim C7 (amended): each anchor sits at 0.6 times the respective
global axis extreme on the x axis and 0.9 times the respective global
axis extreme on the y axis.  (The original claim said 0.6 on both axes;
the code uses 0.9 on y, see the counterexample.) -/
theorem claim_C7_anchor_scaling (tbl : List IndustryRow) (ym : IndustryRow → ℚ) :
    (computeQuadrantLayout tbl ym).annTR
        = ((listMax (tbl.map (fun r => r.ccii))).map (fun a => a * (6/10)),
           (listMax (tbl.map ym)).map (fun a => a * (9/10))) ∧
      (computeQuadrantLayout tbl ym).annTL
        = ((listMin (tbl.map (fun r => r.ccii))).map (fun a => a * (6/10)),
           (listMax (tbl.map ym)).map (fun a => a * (9/10))) ∧
      (computeQuadrantLayout tbl ym).annBL
        = ((listMin (tbl.map (fun r => r.ccii))).map (fun a => a * (6/10)),
           (listMin (tbl.map ym)).map (fun a => a * (9/10))) ∧
      (computeQuadrantLayout tbl ym).annBR
        = ((listMax (tbl.map (fun r => r.ccii))).map (fun a => a * (6/10)),
           (listMin (tbl.map ym)).map (fun a => a * (9/10))) :=
  ⟨rfl, rfl, rfl, rfl⟩

/-- Claim C7 counterexample: on the spec example table the top-right
anchor has y coordinate 0.9 * 10 = 9, not 0.6 * 10 = 6, so the y
coordinate of an anchor is not 0.6 times the axis extreme. -/
theorem claim_C7_counterexample :
    (computeQuadrantLayout exIndustryTable (fun r => r.gwe)).annTR.2 = some 9 ∧
      (listMax (exIndustryTable.map (fun r => r.gwe))).map (fun a => a * (6/10))
        = some 6 ∧
      (computeQuadrantLayout exIndustryTable (fun r => r.gwe)).annTR.2
        ≠ (listMax (exIndustryTable.map (fun r => r.gwe))).map (fun a => a * (6/10)) := by
  have h9 : (computeQuadrantLayout exIndustryTable (fun r => r.gwe)).annTR.2 = some 9 := by
    show (listMax (exIndustryTable.map (fun r => r.gwe))).map (fun a => a * (9/10)) = some 9
    rw [show exIndustryTable.map (fun r => r.gwe) = [0, 10, 2] from rfl,
      show listMax [0, 10, 2] = some (List.foldl max 0 [10, 2]) from rfl]
    norm_num [List.foldl, max_def]
  have h6 : (listMax (exIndustryTable.map (fun r => r.gwe))).map (fun a => a * (6/10))
      = some 6 := by
    rw [show exIndustryTable.map (fun r => r.gwe) = [0, 10, 2] from rfl,
      show listMax [0, 10, 2] = some (List.foldl max 0 [10, 2]) from rfl]
    norm_num [List.foldl, max_def]
  refine ⟨h9, h6, ?_⟩
  rw [h9, h6]
  intro h
  injection h with h
  norm_num at h

/-- Claim C5: loading fails (with the error the spec names DataLoadError)
whenever the file is missing, unparseable, or some year cell is not
coercible to an integer; in every such case no table is returned, in
particular never a partially coerced one.  The file-opening and parsing
outcomes live inside `pd.read_csv`, modelled by `CsvFile`. -/
theorem claim_C5_load_failure (f : CsvFile)
    (h : f = CsvFile.missing ∨ f = CsvFile.malformed ∨
        ∃ rows r s, f = CsvFile.table rows ∧ r ∈ rows ∧
          r.year = RawCell.nonNumeric s) :
    ∃ e, load_data f = Except.error e := by
  rcases h with rfl | rfl | ⟨rows, r, s, rfl, hr, hy⟩
  · exact ⟨DataLoadError.fileMissing, rfl⟩
  · exact ⟨DataLoadError.parseFailure, rfl⟩
  · have he : coerceRow r = Except.error DataLoadError.yearNotCoercible := by
      unfold coerceRow
      rw [hy]
      rfl
    rcases mapM_coerce_error hr he with ⟨e2, he2⟩
    exact ⟨e2, he2⟩

/-- Claim C5 witness: a one-row file whose year cell is the non-numeric
string "n-a" fails to load. -/
theorem claim_C5_witness :
    (CsvFile.table [badRawRow] = CsvFile.missing ∨
        CsvFile.table [badRawRow] = CsvFile.malformed ∨
        ∃ rows r s, CsvFile.table [badRawRow] = CsvFile.table rows ∧ r ∈ rows ∧
          r.year = RawCell.nonNumeric s) ∧
      ∃ e, load_data (CsvFile.table [badRawRow]) = Except.error e :=
  ⟨Or.inr (Or.inr ⟨[badRawRow], badRawRow, "n-a", rfl,
    List.mem_singleton_self _, rfl⟩),
   claim_C5_load_failure (CsvFile.table [badRawRow])
     (Or.inr (Or.inr ⟨[badRawRow], badRawRow, "n-a", rfl,
       List.mem_singleton_self _, rfl⟩))⟩

/-- Claim C8: when loading succeeds, a first call populates the cache and
a second call with the same path returns the identical table from the
cache without re-parsing (the parse counter totals 1 across both calls),
so memoization does not change the returned content. -/
theorem claim_C8_memoized_load (f : CsvFile) (tb : List CountryRow)
    (h : load_data f = Except.ok tb) :
    (loadMemo none f).1 = Except.ok tb ∧
      (loadMemo (loadMemo none f).2.1 f).1 = Except.ok tb ∧
      (loadMemo (loadMemo none f).2.1 f).1 = (loadMemo none f).1 ∧
      (loadMemo none f).2.2 + (loadMemo (loadMemo none f).2.1 f).2.2 = 1 := by
  have h1 : loadMemo none f = (Except.ok tb, some tb, 1) := by
    unfold loadMemo
    rw [h]
  rw [h1]
  exact ⟨rfl, rfl, rfl, rfl⟩

/-- Claim C8 witness: a concrete one-row valid file loads to the same
table twice, with one parse in total. -/
theorem claim_C8_witness :
    load_data goodCsv = Except.ok goodTable ∧
      ((loadMemo none goodCsv).1 = Except.ok goodTable ∧
        (loadMemo (loadMemo none goodCsv).2.1 goodCsv).1 = Except.ok goodTable ∧
        (loadMemo (loadMemo none goodCsv).2.1 goodCsv).1 = (loadMemo none goodCsv).1 ∧
        (loadMemo none goodCsv).2.2
          + (loadMemo (loadMemo none goodCsv).2.1 goodCsv).2.2 = 1) :=
  ⟨rfl, claim_C8_memoized_load goodCsv goodTable rfl⟩
